import Mathlib

/-!
Verification of the ATLAS Evidence Normalization & Scoring Engine and of the
ATLAS frontend helpers.

The backend engine (entity resolver, evidence deduplicator, scoring engine,
confidence classifier) is specified by the design documents of the repository;
its Python implementation is not part of the source tree, so those components
are modelled here from the specification. The frontend helpers
(saveSearchToHistory in Sidebar.tsx, the confidence badge style lookup in
ResultsCard) are embedded directly from the TypeScript source.

Machine reals (Python floats) are modelled as rationals, dates as day counts,
and entity identifiers as natural numbers.
-/

namespace Atlas

/-- Modelled from the spec: a Source row (sources table). Only the fields the
scoring engine reads are kept: the identifier and the static reliability
weight in 1..10 assigned at configuration time. -/
structure Source where
  id : Nat
  reliabilityWeight : Nat
  deriving DecidableEq, Repr

/-- Modelled from the spec: an EvidenceItem row (evidence_items table). The
publication date is a day number since an arbitrary epoch; none models a date
that could not be parsed. industryId and techniqueId are optional, matching
the nullable foreign keys of the schema. -/
structure EvidenceItem where
  actorId : Nat
  industryId : Option Nat
  techniqueId : Option Nat
  source : Source
  sourceUrl : String
  sourceTitle : String
  pubDate : Option Nat
  deriving DecidableEq, Repr

/-- Modelled from the spec: days_since(publication_date) relative to the
current day number; none when the date is not parsable. Dates in the future
clamp to age 0 by truncated subtraction. -/
def daysSinceOf (now : Nat) (e : EvidenceItem) : Option Nat :=
  e.pubDate.map (fun d => now - d)

/-- Modelled from the spec: recency_weight(date) = min(2.0, 1.0 +
(days_since(date) / 365) * 0.5); an item with no parsable date gets the
neutral weight 1.0. -/
def recencyWeight (daysSince : Option Nat) : ℚ :=
  match daysSince with
  | none => 1
  | some d => min 2 (1 + (d : ℚ) / 365 * (1 / 2))

/-- Modelled from the spec: source_weight(source) = source.reliability_weight
/ 10.0. -/
def sourceWeight (s : Source) : ℚ :=
  (s.reliabilityWeight : ℚ) / 10

/-- Modelled from the spec: the contribution of one evidence item to a score,
recency weight times source weight. -/
def itemTerm (now : Nat) (e : EvidenceItem) : ℚ :=
  recencyWeight (daysSinceOf now e) * sourceWeight e.source

/-- Modelled from the spec: whether an evidence item matches an (actor,
industry) pair; actor-only items (industryId = none) match no pair. -/
def aiMatches (a i : Nat) (e : EvidenceItem) : Bool :=
  decide (e.actorId = a) && decide (e.industryId = some i)

/-- Modelled from the spec: an ActorIndustryScore row of the precomputed
actor_industry_scores table, carrying the actor canonical name for the
presentation tie-break. -/
structure ActorIndustryScore where
  actorId : Nat
  industryId : Nat
  actorName : String
  weightedScore : ℚ
  totalEvidenceCount : Nat
  deriving DecidableEq, Repr

/-- Modelled from the spec: the distinct (actor, industry) pairs present in
the evidence store. -/
def aiPairs (evs : List EvidenceItem) : List (Nat × Nat) :=
  (evs.filterMap (fun e => e.industryId.map (fun i => (e.actorId, i)))).dedup

/-- Modelled from the spec: full recomputation of the actor_industry_scores
table. For every (actor, industry) pair touched by evidence, traverse the
matching evidence items accumulating weighted_score += recency_weight *
source_weight, as in the scoring pseudocode. names maps an actor id to its
canonical name. -/
def buildActorIndustryScores (names : Nat → String) (now : Nat)
    (evs : List EvidenceItem) : List ActorIndustryScore :=
  (aiPairs evs).map (fun p =>
    let items := evs.filter (aiMatches p.1 p.2)
    { actorId := p.1
      industryId := p.2
      actorName := names p.1
      weightedScore := items.foldl (fun acc e => acc + itemTerm now e) 0
      totalEvidenceCount := items.length })

/-- Modelled from the spec: whether an evidence item matches an (actor,
technique) pair. -/
def atMatches (a t : Nat) (e : EvidenceItem) : Bool :=
  decide (e.actorId = a) && decide (e.techniqueId = some t)

/-- Modelled from the spec: the industry-match bonus for the technique score,
1.5 when the evidence item carries the queried industry, else 1.0 (and 1.0
throughout when no industry is queried). -/
def industryBonus (queried : Option Nat) (e : EvidenceItem) : ℚ :=
  match queried with
  | some i => if e.industryId = some i then 3 / 2 else 1
  | none => 1

/-- Modelled from the spec: an ActorTechniqueScore row of the precomputed
actor_technique_scores table, scoped by (actor, technique,
industry-or-none). -/
structure ActorTechniqueScore where
  actorId : Nat
  techniqueId : Nat
  techniqueName : String
  queriedIndustry : Option Nat
  weightedScore : ℚ
  evidenceCount : Nat
  deriving DecidableEq, Repr

/-- Modelled from the spec: the distinct (actor, technique) pairs present in
the evidence store. -/
def atPairs (evs : List EvidenceItem) : List (Nat × Nat) :=
  (evs.filterMap (fun e => e.techniqueId.map (fun t => (e.actorId, t)))).dedup

/-- Modelled from the spec: full recomputation of the actor_technique_scores
table for one queried industry context (or none): the same evidence-item
traversal as the actor-industry score, each term additionally multiplied by
the industry-match bonus. tnames maps a technique id to its name. -/
def buildActorTechniqueScores (tnames : Nat → String) (now : Nat)
    (queried : Option Nat) (evs : List EvidenceItem) : List ActorTechniqueScore :=
  (atPairs evs).map (fun p =>
    let items := evs.filter (atMatches p.1 p.2)
    { actorId := p.1
      techniqueId := p.2
      techniqueName := tnames p.2
      queriedIndustry := queried
      weightedScore :=
        items.foldl (fun acc e => acc + itemTerm now e * industryBonus queried e) 0
      evidenceCount := items.length })

/-- Modelled from the spec: the discrete confidence label. -/
inductive Confidence where
  | High
  | Medium
  | Low
  deriving DecidableEq, Repr

/-- Modelled from the spec: the Confidence Classifier, a pure function of
(evidence count, distinct source count, most recent evidence age in months,
average source reliability weight on the 0..1 source_weight scale). High is
checked first, then Medium, anything else is Low. -/
def classifyConfidence (evidenceCount distinctSources mostRecentAgeMonths : Nat)
    (avgReliability : ℚ) : Confidence :=
  if 5 ≤ evidenceCount ∧ 2 ≤ distinctSources ∧ mostRecentAgeMonths ≤ 6 ∧
      7 / 10 ≤ avgReliability then
    Confidence.High
  else if 2 ≤ evidenceCount ∧ evidenceCount ≤ 4 ∧ 1 ≤ distinctSources ∧
      mostRecentAgeMonths ≤ 12 then
    Confidence.Medium
  else
    Confidence.Low

/-- Modelled from the spec: outcome of admitting a candidate evidence item. -/
inductive AdmitResult where
  | admitted
  | duplicate
  deriving DecidableEq, Repr

/-- Modelled from the spec: the deduplication fingerprint (source URL,
resolved actor id, resolved industry id or empty, resolved technique id or
empty). -/
def fingerprint (e : EvidenceItem) : String × Nat × Option Nat × Option Nat :=
  (e.sourceUrl, e.actorId, e.industryId, e.techniqueId)

/-- Modelled from the spec: the Evidence Deduplicator. A candidate is
rejected as a duplicate exactly when a stored item shares both its
fingerprint and its publication date; otherwise it is appended to the store
as an additional item, never replacing a stored one. -/
def admitEvidence (store : List EvidenceItem) (cand : EvidenceItem) :
    AdmitResult × List EvidenceItem :=
  if store.any (fun e =>
      decide (fingerprint e = fingerprint cand) && decide (e.pubDate = cand.pubDate)) then
    (AdmitResult.duplicate, store)
  else
    (AdmitResult.admitted, store ++ [cand])

/-- Modelled from the spec: Levenshtein edit distance between character
lists, standing in for the fuzzy string matching library used by the
resolver. -/
def lev : List Char → List Char → Nat
  | [], ys => ys.length
  | x :: xs, [] => (x :: xs).length
  | x :: xs, y :: ys =>
      if x = y then lev xs ys
      else 1 + min (lev xs (y :: ys)) (min (lev (x :: xs) ys) (lev xs ys))
termination_by xs ys => xs.length + ys.length
decreasing_by all_goals simp_arith

/-- Modelled from the spec: edit distance on strings. -/
def levStr (a b : String) : Nat :=
  lev a.data b.data

/-- Modelled from the spec: the approximate-match step of the Entity
Resolver over candidate (name-or-alias, entity id) pairs: the best candidate
is accepted only when it is the single candidate with edit distance below
the threshold; if two or more candidates fall within the threshold the match
is ambiguous and resolves to no-match. -/
def approxMatch (thr : Nat) (cands : List (String × Nat)) (raw : String) :
    Option Nat :=
  match cands.filter (fun c => decide (levStr raw c.1 < thr)) with
  | [c] => some c.2
  | _ => none

/-- Modelled from the spec: a ThreatActorGroup row with its alias set. -/
structure ThreatActorGroup where
  id : Nat
  name : String
  aliases : List String
  deriving DecidableEq, Repr

/-- Modelled from the spec: actor resolution in priority order: exact
case-insensitive canonical-name match, exact case-insensitive alias match,
then approximate match with the default threshold of edit distance < 3. -/
def resolveActor (registry : List ThreatActorGroup) (raw : String) : Option Nat :=
  match registry.find? (fun a => a.name.toLower == raw.toLower) with
  | some a => some a.id
  | none =>
    match registry.find? (fun a => a.aliases.any (fun s => s.toLower == raw.toLower)) with
    | some a => some a.id
    | none =>
      approxMatch 3
        (registry.flatMap (fun a => (a.name :: a.aliases).map (fun s => (s, a.id)))) raw

/-- Modelled from the spec: the two precomputed score tables owned by the
Scoring Engine; the actor-technique table holds one entry per (actor,
technique, industry-or-none) combination. -/
structure ScoreDB where
  actorIndustryScores : List ActorIndustryScore
  actorTechniqueScores : List ActorTechniqueScore
  deriving DecidableEq, Repr

/-- Modelled from the spec: the distinct industries referenced by the
evidence store. -/
def industriesOf (evs : List EvidenceItem) : List Nat :=
  (evs.filterMap (fun e => e.industryId)).dedup

/-- Modelled from the spec: recompute(full): truncate both score tables and
rebuild every pair from scratch out of the current evidence store, ignoring
the previous table state. -/
def recomputeFull (names tnames : Nat → String) (now : Nat)
    (evs : List EvidenceItem) (_previous : ScoreDB) : ScoreDB :=
  { actorIndustryScores := buildActorIndustryScores names now evs
    actorTechniqueScores :=
      (none :: (industriesOf evs).map some).flatMap
        (fun qi => buildActorTechniqueScores tnames now qi evs) }

/-- Modelled from the spec: the presentation order key (weighted score,
evidence count, canonical name). keyLE puts higher scores first, breaks ties
by higher evidence count, then by name ascending. -/
def keyLE (k₁ k₂ : ℚ × Nat × String) : Prop :=
  k₂.1 < k₁.1 ∨ (k₁.1 = k₂.1 ∧
    (k₂.2.1 < k₁.2.1 ∨ (k₁.2.1 = k₂.2.1 ∧ k₁.2.2.data ≤ k₂.2.2.data)))

instance : DecidableRel keyLE := fun k₁ k₂ => by
  unfold keyLE
  infer_instance

/-- Modelled from the spec: the ranking order lifted along a key function. -/
def rankLE {α : Type} (key : α → ℚ × Nat × String) (a b : α) : Prop :=
  keyLE (key a) (key b)

instance {α : Type} (key : α → ℚ × Nat × String) : DecidableRel (rankLE key) :=
  fun a b => by
    unfold rankLE
    infer_instance

/-- Modelled from the spec: deterministic sort by the ranking key. -/
def sortRank {α : Type} (key : α → ℚ × Nat × String) (l : List α) : List α :=
  List.insertionSort (rankLE key) l

/-- Modelled from the spec: the ranking key of an actor-industry entry. -/
def keyAI (e : ActorIndustryScore) : ℚ × Nat × String :=
  (e.weightedScore, e.totalEvidenceCount, e.actorName)

/-- Modelled from the spec: the ranking key of an actor-technique entry. -/
def keyAT (e : ActorTechniqueScore) : ℚ × Nat × String :=
  (e.weightedScore, e.evidenceCount, e.techniqueName)

/-- Modelled from the spec: get_top_actors(industry_id, limit), ordered by
score descending with ties broken by evidence count descending then actor
canonical name ascending. -/
def getTopActors (db : ScoreDB) (industryId limit : Nat) : List ActorIndustryScore :=
  (sortRank keyAI (db.actorIndustryScores.filter
    (fun e => decide (e.industryId = industryId)))).take limit

/-- Modelled from the spec: get_top_techniques(actor_id, industry_id?,
limit), ranked with the same tie-break pattern. -/
def getTopTechniques (db : ScoreDB) (actorId : Nat) (queried : Option Nat)
    (limit : Nat) : List ActorTechniqueScore :=
  (sortRank keyAT (db.actorTechniqueScores.filter
    (fun e => decide (e.actorId = actorId) && decide (e.queriedIndustry = queried)))).take
    limit

/-- One entry of the search history stored by Sidebar.tsx; the results
payload is opaque to the history logic. -/
structure SearchHistoryItem (ρ : Type) where
  id : String
  companyName : String
  businessVertical : String
  subVertical : Option String
  timestamp : String
  results : ρ
  deriving DecidableEq, Repr

/-- MAX_HISTORY from Sidebar.tsx. -/
def maxHistory : Nat := 20

/-- Two history entries describe the same search when their (companyName,
businessVertical, subVertical) triples coincide. -/
def sameTriple {ρ : Type} (a b : SearchHistoryItem ρ) : Prop :=
  a.companyName = b.companyName ∧ a.businessVertical = b.businessVertical ∧
    a.subVertical = b.subVertical

/-- saveSearchToHistory from Sidebar.tsx: build the new item, filter out
stored entries with the same (companyName, businessVertical, subVertical)
triple, unshift the new item, and keep the first MAX_HISTORY entries. -/
def saveSearchToHistory {ρ : Type} (history : List (SearchHistoryItem ρ))
    (newId companyName businessVertical : String) (subVertical : Option String)
    (timestamp : String) (results : ρ) : List (SearchHistoryItem ρ) :=
  let newItem : SearchHistoryItem ρ :=
    { id := newId
      companyName := companyName
      businessVertical := businessVertical
      subVertical := subVertical
      timestamp := timestamp
      results := results }
  let filtered := history.filter (fun h =>
    !(decide (h.companyName = companyName) && decide (h.businessVertical = businessVertical)
      && decide (h.subVertical = subVertical)))
  (newItem :: filtered).take maxHistory

/-- The High confidence badge style from ResultsCard. -/
def styleHigh : String := "bg-gruvbox-green text-gruvbox-darker border-gruvbox-green-bright"

/-- The Medium confidence badge style from ResultsCard. -/
def styleMedium : String := "bg-gruvbox-orange text-gruvbox-light border-gruvbox-orange"

/-- The Low confidence badge style from ResultsCard. -/
def styleLow : String := "bg-gruvbox-red text-gruvbox-light border-gruvbox-red"

/-- The fallback gray badge style from ResultsCard. -/
def styleGray : String := "bg-gruvbox-gray text-gruvbox-light border-gruvbox-gray"

/-- The property names every plain JavaScript object literal inherits from
Object.prototype; accessing any of them on the ResultsCard style object
yields an inherited member instead of undefined. -/
def objectPrototypeProps : List String :=
  ["constructor", "hasOwnProperty", "isPrototypeOf", "propertyIsEnumerable",
    "toLocaleString", "toString", "valueOf", "__proto__",
    "__defineGetter__", "__defineSetter__", "__lookupGetter__", "__lookupSetter__"]

/-- A JavaScript value as produced by the ResultsCard style lookup: an own
string property, a member inherited from Object.prototype (a function or the
prototype object itself, identified by the accessed name), or undefined. -/
inductive JsValue where
  | str (s : String)
  | inherited (name : String)
  | undef
  deriving DecidableEq, Repr

/-- JavaScript truthiness of a lookup result: the empty string and undefined
are falsy; every non-empty string and every inherited member (functions and
objects) are truthy. -/
def jsTruthy : JsValue → Bool
  | JsValue.str s => !(s == "")
  | JsValue.inherited _ => true
  | JsValue.undef => false

/-- The object-literal property access of ResultsCard: the three own keys
High, Medium and Low, then the prototype chain of Object.prototype, then
undefined. -/
def confidenceColorLookup (confidence : String) : JsValue :=
  if confidence = "High" then JsValue.str styleHigh
  else if confidence = "Medium" then JsValue.str styleMedium
  else if confidence = "Low" then JsValue.str styleLow
  else if confidence ∈ objectPrototypeProps then JsValue.inherited confidence
  else JsValue.undef

/-- confidenceColor from ResultsCard: the lookup result when truthy, else
the gray fallback supplied by the || operator. -/
def confidenceColor (confidence : String) : JsValue :=
  if jsTruthy (confidenceColorLookup confidence) then confidenceColorLookup confidence
  else JsValue.str styleGray

/-- Accumulating a mapped rational over a list with foldl equals the initial
accumulator plus the sum of the mapped list. -/
theorem foldl_add_map_sum {α : Type} (f : α → ℚ) :
    ∀ (l : List α) (acc : ℚ), l.foldl (fun a e => a + f e) acc = acc + (l.map f).sum
  | [], acc => by simp
  | x :: l, acc => by
    rw [List.foldl_cons, foldl_add_map_sum f l (acc + f x)]
    simp [add_assoc]

/-- C1: the recency weight equals min(2, 1 + (days/365) * 0.5): it is
monotonically non-decreasing in age, never exceeds 2, equals 1 at age 0 days
and 3/2 at age 365 days; an item with no parsable date gets weight exactly
1. -/
theorem recencyWeight_spec :
    (∀ d₁ d₂ : Nat, d₁ ≤ d₂ → recencyWeight (some d₁) ≤ recencyWeight (some d₂)) ∧
    (∀ d : Option Nat, recencyWeight d ≤ 2) ∧
    recencyWeight (some 0) = 1 ∧
    recencyWeight (some 365) = 3 / 2 ∧
    recencyWeight none = 1 := by
  refine ⟨?_, ?_, ?_, ?_, rfl⟩
  · intro d₁ d₂ h
    have hc : (d₁ : ℚ) ≤ (d₂ : ℚ) := by exact_mod_cast h
    simp only [recencyWeight]
    apply min_le_min le_rfl
    have : (d₁ : ℚ) / 365 * (1 / 2) ≤ (d₂ : ℚ) / 365 * (1 / 2) := by
      apply mul_le_mul_of_nonneg_right _ (by norm_num)
      apply div_le_div_of_nonneg_right hc (by norm_num)
    linarith
  · intro d
    match d with
    | none =>
      norm_num [recencyWeight]
    | some d =>
      simp only [recencyWeight]
      exact min_le_left 2 (1 + (d : ℚ) / 365 * (1 / 2))
  · norm_num [recencyWeight]
  · norm_num [recencyWeight]

/-- Witness for C1 at concrete ages. -/
theorem recencyWeight_spec_witness :
    recencyWeight (some 100) ≤ recencyWeight (some 200) ∧
      recencyWeight (some 10000) ≤ 2 :=
  ⟨recencyWeight_spec.1 100 200 (by norm_num), recencyWeight_spec.2.1 (some 10000)⟩

/-- C4: the Confidence Classifier is total with High checked first, then
Medium, then Low: High holds exactly on (count ≥ 5, sources ≥ 2, an item
within 6 months, average reliability ≥ 7/10); failing High, Medium holds
exactly on (count in 2..4, sources ≥ 1, an item within 12 months); Low holds
exactly when both fail. -/
theorem classifyConfidence_spec (c s a : Nat) (r : ℚ) :
    (classifyConfidence c s a r = Confidence.High ↔
      (5 ≤ c ∧ 2 ≤ s ∧ a ≤ 6 ∧ 7 / 10 ≤ r)) ∧
    (classifyConfidence c s a r = Confidence.Medium ↔
      (¬(5 ≤ c ∧ 2 ≤ s ∧ a ≤ 6 ∧ 7 / 10 ≤ r) ∧
        (2 ≤ c ∧ c ≤ 4 ∧ 1 ≤ s ∧ a ≤ 12))) ∧
    (classifyConfidence c s a r = Confidence.Low ↔
      (¬(5 ≤ c ∧ 2 ≤ s ∧ a ≤ 6 ∧ 7 / 10 ≤ r) ∧
        ¬(2 ≤ c ∧ c ≤ 4 ∧ 1 ≤ s ∧ a ≤ 12))) := by
  unfold classifyConfidence
  split_ifs with h₁ h₂ <;> simp_all

/-- C10 counterexample: the confidence string toString is none of High,
Medium or Low, yet the badge style lookup does not fall back to the gray
style: the object-literal access hits the toString member inherited from
Object.prototype, which is truthy, so the || fallback never fires. -/
theorem confidenceColor_proto_counterexample :
    "toString" ≠ "High" ∧ "toString" ≠ "Medium" ∧ "toString" ≠ "Low" ∧
      confidenceColor "toString" ≠ JsValue.str styleGray ∧
      confidenceColor "toString" = JsValue.inherited "toString" := by
  decide

/-- C10 (amended): the confidence badge style lookup never produces an
undefined style: it yields one of the four style strings or a truthy member
inherited from Object.prototype; and any confidence string other than
exactly High, Medium or Low that does not name an Object.prototype property
falls back to the gray style. -/
theorem confidenceColor_spec (confidence : String) :
    (confidenceColor confidence = JsValue.str styleHigh ∨
      confidenceColor confidence = JsValue.str styleMedium ∨
      confidenceColor confidence = JsValue.str styleLow ∨
      confidenceColor confidence = JsValue.inherited confidence ∨
      confidenceColor confidence = JsValue.str styleGray) ∧
    (confidence ≠ "High" → confidence ≠ "Medium" → confidence ≠ "Low" →
      confidence ∉ objectPrototypeProps →
      confidenceColor confidence = JsValue.str styleGray) := by
  unfold confidenceColor confidenceColorLookup jsTruthy
  split_ifs with h₁ h₂ h₃ h₄ <;> simp_all

/-- Witness for C10: a differently-cased string and the empty string both
fall back to the gray style. -/
theorem confidenceColor_spec_witness :
    confidenceColor "high" = JsValue.str styleGray ∧
      confidenceColor "" = JsValue.str styleGray :=
  ⟨(confidenceColor_spec "high").2 (by decide) (by decide) (by decide) (by decide),
    (confidenceColor_spec "").2 (by decide) (by decide) (by decide) (by decide)⟩

/-- C2: every entry of the recomputed actor-industry table scores its
(actor, industry) pair as the sum, over the admitted evidence items matching
that pair, of recency_weight(publication date) times (reliability_weight /
10), with no other terms or factors. -/
theorem actorIndustryScore_spec (names : Nat → String) (now : Nat)
    (evs : List EvidenceItem) (entry : ActorIndustryScore)
    (h : entry ∈ buildActorIndustryScores names now evs) :
    entry.weightedScore =
      ((evs.filter (aiMatches entry.actorId entry.industryId)).map
        (fun e => recencyWeight (daysSinceOf now e) *
          ((e.source.reliabilityWeight : ℚ) / 10))).sum := by
  unfold buildActorIndustryScores at h
  obtain ⟨p, _, rfl⟩ := List.mem_map.mp h
  simp only [foldl_add_map_sum, zero_add, itemTerm, sourceWeight]

/-- Witness for C2: one evidence item of reliability 8 published 365 days
ago contributes a score of (3/2) * (8/10) = 6/5. -/
theorem actorIndustryScore_spec_witness :
    (6 : ℚ) / 5 =
      ((([⟨1, some 2, none, ⟨1, 8⟩, "u", "t", some 0⟩] :
          List EvidenceItem).filter (aiMatches 1 2)).map
        (fun e => recencyWeight (daysSinceOf 365 e) *
          ((e.source.reliabilityWeight : ℚ) / 10))).sum := by
  have h := actorIndustryScore_spec (fun _ => "A") 365
    [⟨1, some 2, none, ⟨1, 8⟩, "u", "t", some 0⟩]
    { actorId := 1
      industryId := 2
      actorName := "A"
      weightedScore := 6 / 5
      totalEvidenceCount := 1 }
    (by
      simp only [buildActorIndustryScores, aiPairs, List.filterMap, List.dedup,
        List.map, List.mem_singleton]
      norm_num [aiMatches, itemTerm, daysSinceOf, recencyWeight, sourceWeight,
        List.filter, List.foldl])
  simpa using h

/-- C3: every entry of the recomputed actor-technique table for a queried
industry scores its (actor, technique) pair by the same per-evidence-item
traversal as the actor-industry score, each recency-times-source term
additionally multiplied by 3/2 when the item carries the queried industry
and by 1 otherwise. -/
theorem actorTechniqueScore_spec (tnames : Nat → String) (now : Nat)
    (queriedIndustry : Nat) (evs : List EvidenceItem) (entry : ActorTechniqueScore)
    (h : entry ∈ buildActorTechniqueScores tnames now (some queriedIndustry) evs) :
    entry.weightedScore =
      ((evs.filter (atMatches entry.actorId entry.techniqueId)).map
        (fun e => recencyWeight (daysSinceOf now e) *
          ((e.source.reliabilityWeight : ℚ) / 10) *
          (if e.industryId = some queriedIndustry then 3 / 2 else 1))).sum := by
  unfold buildActorTechniqueScores at h
  obtain ⟨p, _, rfl⟩ := List.mem_map.mp h
  simp only [foldl_add_map_sum, zero_add, itemTerm, sourceWeight, industryBonus]

/-- Witness for C3: one technique evidence item of reliability 8 published
365 days ago and carrying the queried industry contributes (3/2) * (8/10) *
(3/2) = 9/5. -/
theorem actorTechniqueScore_spec_witness :
    (9 : ℚ) / 5 =
      ((([⟨1, some 2, some 3, ⟨1, 8⟩, "u", "t", some 0⟩] :
          List EvidenceItem).filter (atMatches 1 3)).map
        (fun e => recencyWeight (daysSinceOf 365 e) *
          ((e.source.reliabilityWeight : ℚ) / 10) *
          (if e.industryId = some 2 then 3 / 2 else 1))).sum := by
  have h := actorTechniqueScore_spec (fun _ => "T") 365 2
    [⟨1, some 2, some 3, ⟨1, 8⟩, "u", "t", some 0⟩]
    { actorId := 1
      techniqueId := 3
      techniqueName := "T"
      queriedIndustry := some 2
      weightedScore := 9 / 5
      evidenceCount := 1 }
    (by
      simp only [buildActorTechniqueScores, atPairs, List.filterMap, List.dedup,
        List.map, List.mem_singleton]
      norm_num [atMatches, itemTerm, daysSinceOf, recencyWeight, sourceWeight,
        industryBonus, List.filter, List.foldl])
  simpa using h

/-- C5: admit_evidence reports a duplicate and leaves the store unchanged
exactly when a stored item shares both the fingerprint and the publication
date of the candidate; when no stored item does, the candidate is appended
as an additional item, keeping every stored item. -/
theorem admitEvidence_spec (store : List EvidenceItem) (cand : EvidenceItem) :
    (admitEvidence store cand = (AdmitResult.duplicate, store) ↔
      ∃ e ∈ store, fingerprint e = fingerprint cand ∧ e.pubDate = cand.pubDate) ∧
    ((∀ e ∈ store, ¬(fingerprint e = fingerprint cand ∧ e.pubDate = cand.pubDate)) →
      admitEvidence store cand = (AdmitResult.admitted, store ++ [cand])) := by
  unfold admitEvidence
  by_cases h : store.any (fun e =>
      decide (fingerprint e = fingerprint cand) && decide (e.pubDate = cand.pubDate))
  · rw [if_pos h]
    rw [List.any_eq_true] at h
    obtain ⟨e, he, hprop⟩ := h
    simp only [Bool.and_eq_true, decide_eq_true_eq] at hprop
    constructor
    · exact ⟨fun _ => ⟨e, he, hprop⟩, fun _ => rfl⟩
    · intro hall
      exact absurd hprop (hall e he)
  · rw [if_neg h]
    constructor
    · constructor
      · intro hcontr
        exact absurd (congrArg Prod.fst hcontr) (by simp)
      · intro ⟨e, he, hfp, hd⟩
        exact absurd (List.any_eq_true.mpr ⟨e, he, by simp [hfp, hd]⟩) h
    · intro _
      rfl

/-- Witness for C5: with one stored item, re-admitting the same fingerprint
with the same date is a duplicate, and the same fingerprint with a different
date is admitted as an additional item. -/
theorem admitEvidence_spec_witness :
    admitEvidence [⟨1, some 2, none, ⟨1, 8⟩, "u", "t", some 10⟩]
        ⟨1, some 2, none, ⟨1, 8⟩, "u2", "t", some 10⟩ =
      (AdmitResult.admitted,
        [⟨1, some 2, none, ⟨1, 8⟩, "u", "t", some 10⟩,
          ⟨1, some 2, none, ⟨1, 8⟩, "u2", "t", some 10⟩]) ∧
    admitEvidence [⟨1, some 2, none, ⟨1, 8⟩, "u", "t", some 10⟩]
        ⟨1, some 2, none, ⟨1, 8⟩, "u", "t", some 11⟩ =
      (AdmitResult.admitted,
        [⟨1, some 2, none, ⟨1, 8⟩, "u", "t", some 10⟩,
          ⟨1, some 2, none, ⟨1, 8⟩, "u", "t", some 11⟩]) :=
  ⟨(admitEvidence_spec _ _).2 (by decide), (admitEvidence_spec _ _).2 (by decide)⟩

/-- C6: the approximate-match step accepts a candidate only when it is the
unique candidate with edit distance below the threshold: whenever two
distinct candidates both fall within the threshold the result is no-match,
and an accepted id comes from a candidate within the threshold that no other
within-threshold candidate competes with. -/
theorem approxMatch_spec (thr : Nat) (cands : List (String × Nat)) (raw : String) :
    (∀ c₁ ∈ cands, ∀ c₂ ∈ cands, c₁ ≠ c₂ →
      levStr raw c₁.1 < thr → levStr raw c₂.1 < thr →
      approxMatch thr cands raw = none) ∧
    (∀ i, approxMatch thr cands raw = some i →
      ∃ c ∈ cands, c.2 = i ∧ levStr raw c.1 < thr ∧
        ∀ c₂ ∈ cands, levStr raw c₂.1 < thr → c₂ = c) := by
  unfold approxMatch
  constructor
  · intro c₁ h₁ c₂ h₂ hne hd₁ hd₂
    have hm₁ : c₁ ∈ cands.filter (fun c => decide (levStr raw c.1 < thr)) :=
      List.mem_filter.mpr ⟨h₁, by simpa using hd₁⟩
    have hm₂ : c₂ ∈ cands.filter (fun c => decide (levStr raw c.1 < thr)) :=
      List.mem_filter.mpr ⟨h₂, by simpa using hd₂⟩
    match hf : cands.filter (fun c => decide (levStr raw c.1 < thr)) with
    | [] => rw [hf]
    | [c] =>
      rw [hf] at hm₁ hm₂
      simp only [List.mem_singleton] at hm₁ hm₂
      exact absurd (hm₁.trans hm₂.symm) hne
    | c :: c₂ :: rest => rw [hf]
  · intro i hi
    match hf : cands.filter (fun c => decide (levStr raw c.1 < thr)) with
    | [] => rw [hf] at hi; exact absurd hi (by simp)
    | [c] =>
      rw [hf] at hi
      simp only [Option.some.injEq] at hi
      have hc : c ∈ cands.filter (fun x => decide (levStr raw x.1 < thr)) := by
        rw [hf]; exact List.mem_singleton.mpr rfl
      have hc₂ := List.mem_filter.mp hc
      refine ⟨c, hc₂.1, hi, by simpa using hc₂.2, ?_⟩
      intro c₂ hmem hd
      have : c₂ ∈ cands.filter (fun x => decide (levStr raw x.1 < thr)) :=
        List.mem_filter.mpr ⟨hmem, by simpa using hd⟩
      rw [hf] at this
      exact List.mem_singleton.mp this
    | c :: c₂ :: rest => rw [hf] at hi; exact absurd hi (by simp)

/-- Witness for C6: with two candidates both within distance 3 of the input,
resolution is ambiguous and returns no-match. -/
theorem approxMatch_spec_witness :
    approxMatch 3 [("abc", 1), ("abd", 2)] "abc" = none :=
  (approxMatch_spec 3 [("abc", 1), ("abd", 2)] "abc").1
    ("abc", 1) (by simp) ("abd", 2) (by simp) (by simp)
    (by simp [levStr, lev]) (by simp [levStr, lev])

/-- C7: recompute(full) is a pure, deterministic function of the evidence
store content: running it twice in succession yields the same score tables
as running it once, and its result does not depend on the previous table
state. -/
theorem recomputeFull_deterministic (names tnames : Nat → String) (now : Nat)
    (evs : List EvidenceItem) :
    (∀ db : ScoreDB,
      recomputeFull names tnames now evs (recomputeFull names tnames now evs db) =
        recomputeFull names tnames now evs db) ∧
    (∀ db₁ db₂ : ScoreDB,
      recomputeFull names tnames now evs db₁ = recomputeFull names tnames now evs db₂) :=
  ⟨fun _ => rfl, fun _ _ => rfl⟩

/-- The ranking order on keys is total. -/
theorem keyLE_total (k₁ k₂ : ℚ × Nat × String) : keyLE k₁ k₂ ∨ keyLE k₂ k₁ := by
  obtain ⟨q₁, n₁, s₁⟩ := k₁
  obtain ⟨q₂, n₂, s₂⟩ := k₂
  unfold keyLE
  simp only
  rcases lt_trichotomy q₁ q₂ with hq | hq | hq
  · exact Or.inr (Or.inl hq)
  · rcases lt_trichotomy n₁ n₂ with hn | hn | hn
    · exact Or.inr (Or.inr ⟨hq.symm, Or.inl hn⟩)
    · rcases le_total s₁.data s₂.data with hs | hs
      · exact Or.inl (Or.inr ⟨hq, Or.inr ⟨hn, hs⟩⟩)
      · exact Or.inr (Or.inr ⟨hq.symm, Or.inr ⟨hn.symm, hs⟩⟩)
    · exact Or.inl (Or.inr ⟨hq, Or.inl hn⟩)
  · exact Or.inl (Or.inl hq)

/-- The ranking order on keys is transitive. -/
theorem keyLE_trans (k₁ k₂ k₃ : ℚ × Nat × String) :
    keyLE k₁ k₂ → keyLE k₂ k₃ → keyLE k₁ k₃ := by
  obtain ⟨q₁, n₁, s₁⟩ := k₁
  obtain ⟨q₂, n₂, s₂⟩ := k₂
  obtain ⟨q₃, n₃, s₃⟩ := k₃
  unfold keyLE
  simp only
  rintro (h₁ | ⟨hq₁, h₁⟩) (h₂ | ⟨hq₂, h₂⟩)
  · exact Or.inl (h₂.trans h₁)
  · exact Or.inl (hq₂ ▸ h₁)
  · exact Or.inl (hq₁ ▸ h₂)
  · refine Or.inr ⟨hq₁.trans hq₂, ?_⟩
    rcases h₁ with hn₁ | ⟨hn₁, hs₁⟩ <;> rcases h₂ with hn₂ | ⟨hn₂, hs₂⟩
    · exact Or.inl (hn₂.trans hn₁)
    · exact Or.inl (hn₂ ▸ hn₁)
    · exact Or.inl (hn₁ ▸ hn₂)
    · exact Or.inr ⟨hn₁.trans hn₂, hs₁.trans hs₂⟩

/-- The ranking order on keys is antisymmetric. -/
theorem keyLE_antisymm (k₁ k₂ : ℚ × Nat × String) :
    keyLE k₁ k₂ → keyLE k₂ k₁ → k₁ = k₂ := by
  obtain ⟨q₁, n₁, s₁⟩ := k₁
  obtain ⟨q₂, n₂, s₂⟩ := k₂
  unfold keyLE
  simp only
  rintro (h₁ | ⟨hq₁, h₁⟩) (h₂ | ⟨hq₂, h₂⟩)
  · exact absurd h₂ (lt_asymm h₁)
  · exact absurd h₁ (hq₂ ▸ lt_irrefl q₁)
  · exact absurd h₂ (hq₁ ▸ lt_irrefl q₁)
  · have hs : s₁ = s₂ := by
      rcases h₁ with hn₁ | ⟨hn₁, hs₁⟩ <;> rcases h₂ with hn₂ | ⟨hn₂, hs₂⟩
      · exact absurd hn₂ (Nat.lt_asymm hn₁)
      · exact absurd hn₁ (hn₂ ▸ Nat.lt_irrefl n₁)
      · exact absurd hn₂ (hn₁ ▸ Nat.lt_irrefl n₁)
      · have := le_antisymm hs₁ hs₂
        cases s₁
        cases s₂
        simp_all
    have hn : n₁ = n₂ := by
      rcases h₁ with hn₁ | ⟨hn₁, _⟩ <;> rcases h₂ with hn₂ | ⟨hn₂, _⟩
      · exact absurd hn₂ (Nat.lt_asymm hn₁)
      · exact absurd hn₁ (hn₂ ▸ Nat.lt_irrefl n₁)
      · exact absurd hn₂ (hn₁ ▸ Nat.lt_irrefl n₁)
      · exact hn₁
    simp [hq₁, hn, hs]

/-- Two sorted lists that are permutations of each other and whose elements
the order separates are equal. -/
theorem eq_of_perm_of_sorted_of_antisymmOn {α : Type} {r : α → α → Prop} :
    ∀ {l₁ l₂ : List α}, l₁.Perm l₂ → l₁.Sorted r → l₂.Sorted r →
      (∀ a ∈ l₁, ∀ b ∈ l₁, r a b → r b a → a = b) → l₁ = l₂ := by
  intro l₁
  induction l₁ with
  | nil =>
    intro l₂ hp _ _ _
    have := hp.length_eq
    cases l₂ with
    | nil => rfl
    | cons b t₂ => simp at this
  | cons a t ih =>
    intro l₂ hp hs₁ hs₂ hanti
    cases l₂ with
    | nil =>
      have := hp.length_eq
      simp at this
    | cons b t₂ =>
      have hab : a = b := by
        by_cases h : a = b
        · exact h
        · have ha₂ : a ∈ b :: t₂ := hp.mem_iff.mp (List.mem_cons_self a t)
          have hb₁ : b ∈ a :: t := hp.mem_iff.mpr (List.mem_cons_self b t₂)
          have ha₂t : a ∈ t₂ := (List.mem_cons.mp ha₂).resolve_left h
          have hb₁t : b ∈ t := (List.mem_cons.mp hb₁).resolve_left fun he => h he.symm
          have hrba : r b a := List.rel_of_sorted_cons hs₂ a ha₂t
          have hrab : r a b := List.rel_of_sorted_cons hs₁ b hb₁t
          exact hanti a (List.mem_cons_self a t) b hb₁ hrab hrba
      subst hab
      have hp₂ : t.Perm t₂ := hp.cons_inv
      have ht : t = t₂ :=
        ih hp₂ hs₁.of_cons hs₂.of_cons fun x hx y hy =>
          hanti x (List.mem_cons_of_mem a hx) y (List.mem_cons_of_mem a hy)
      rw [ht]

/-- sortRank produces a list sorted by the ranking order. -/
theorem sortRank_sorted {α : Type} (key : α → ℚ × Nat × String) (l : List α) :
    (sortRank key l).Sorted (rankLE key) := by
  haveI : IsTotal α (rankLE key) := ⟨fun a b => keyLE_total (key a) (key b)⟩
  haveI : IsTrans α (rankLE key) :=
    ⟨fun a b c => keyLE_trans (key a) (key b) (key c)⟩
  exact List.sorted_insertionSort (rankLE key) l

/-- sortRank permutes its input. -/
theorem sortRank_perm {α : Type} (key : α → ℚ × Nat × String) (l : List α) :
    (sortRank key l).Perm l :=
  List.perm_insertionSort (rankLE key) l

/-- sortRank is independent of input order whenever the key separates the
elements. -/
theorem sortRank_congr {α : Type} (key : α → ℚ × Nat × String)
    {l₁ l₂ : List α} (hp : l₁.Perm l₂)
    (hinj : ∀ a ∈ l₁, ∀ b ∈ l₁, key a = key b → a = b) :
    sortRank key l₁ = sortRank key l₂ := by
  apply eq_of_perm_of_sorted_of_antisymmOn
    ((sortRank_perm key l₁).trans (hp.trans (sortRank_perm key l₂).symm))
    (sortRank_sorted key l₁) (sortRank_sorted key l₂)
  intro a ha b hb hab hba
  have ha₁ : a ∈ l₁ := (sortRank_perm key l₁).mem_iff.mp ha
  have hb₁ : b ∈ l₁ := (sortRank_perm key l₁).mem_iff.mp hb
  exact hinj a ha₁ b hb₁ (keyLE_antisymm (key a) (key b) hab hba)

/-- C8: get_top_actors returns a list sorted by the ranking order (score
descending, then evidence count descending, then actor canonical name
ascending); technique ranking follows the same pattern; and the returned
order depends only on the multiset of score entries, never on their
iteration order, whenever the actor names within the queried industry slice
are distinct (as unique canonical names guarantee). -/
theorem getTopActors_spec (db : ScoreDB) (industryId limit : Nat) :
    (getTopActors db industryId limit).Sorted (rankLE keyAI) ∧
    (∀ (actorId : Nat) (queried : Option Nat) (lim : Nat),
      (getTopTechniques db actorId queried lim).Sorted (rankLE keyAT)) ∧
    (∀ db₂ : ScoreDB,
      db.actorIndustryScores.Perm db₂.actorIndustryScores →
      ((db.actorIndustryScores.filter
        (fun e => decide (e.industryId = industryId))).map
          ActorIndustryScore.actorName).Nodup →
      getTopActors db industryId limit = getTopActors db₂ industryId limit) := by
  refine ⟨?_, ?_, ?_⟩
  · exact List.Pairwise.sublist (List.take_sublist _ _) (sortRank_sorted keyAI _)
  · intro actorId queried lim
    exact List.Pairwise.sublist (List.take_sublist _ _) (sortRank_sorted keyAT _)
  · intro db₂ hp hnodupf
    unfold getTopActors
    have hpf : (db.actorIndustryScores.filter (fun e => decide (e.industryId = industryId))).Perm
        (db₂.actorIndustryScores.filter (fun e => decide (e.industryId = industryId))) :=
      hp.filter _
    have hinj := List.inj_on_of_nodup_map hnodupf
    rw [sortRank_congr keyAI hpf]
    intro a ha b hb hkey
    exact hinj ha hb (congrArg (fun k => k.2.2) hkey)

/-- Witness for C8: two entries for the same industry presented in either
iteration order rank identically. -/
theorem getTopActors_spec_witness :
    getTopActors
        (⟨[⟨1, 7, "A", 2, 3⟩, ⟨2, 7, "B", 1, 1⟩], []⟩ : ScoreDB) 7 5 =
      getTopActors
        (⟨[⟨2, 7, "B", 1, 1⟩, ⟨1, 7, "A", 2, 3⟩], []⟩ : ScoreDB) 7 5 :=
  (getTopActors_spec (⟨[⟨1, 7, "A", 2, 3⟩, ⟨2, 7, "B", 1, 1⟩], []⟩ : ScoreDB) 7 5).2.2
    (⟨[⟨2, 7, "B", 1, 1⟩, ⟨1, 7, "A", 2, 3⟩], []⟩ : ScoreDB)
    (List.Perm.swap (⟨2, 7, "B", 1, 1⟩ : ActorIndustryScore)
      (⟨1, 7, "A", 2, 3⟩ : ActorIndustryScore) [])
    (by decide)

/-- C9: saving a search keeps the history at no more than MAX_HISTORY
entries, puts the just-saved search first, preserves the at-most-one-entry-
per-triple invariant, and replaces any older entry with the same triple
rather than keeping a second one. -/
theorem saveSearchToHistory_spec {ρ : Type} (history : List (SearchHistoryItem ρ))
    (newId companyName businessVertical : String) (subVertical : Option String)
    (timestamp : String) (results : ρ)
    (hinv : history.Pairwise (fun a b => ¬sameTriple a b)) :
    (saveSearchToHistory history newId companyName businessVertical subVertical
        timestamp results).length ≤ maxHistory ∧
    (saveSearchToHistory history newId companyName businessVertical subVertical
        timestamp results).head? =
      some ⟨newId, companyName, businessVertical, subVertical, timestamp, results⟩ ∧
    (saveSearchToHistory history newId companyName businessVertical subVertical
        timestamp results).Pairwise (fun a b => ¬sameTriple a b) ∧
    (∀ x ∈ saveSearchToHistory history newId companyName businessVertical subVertical
        timestamp results,
      x.companyName = companyName → x.businessVertical = businessVertical →
      x.subVertical = subVertical →
      x = ⟨newId, companyName, businessVertical, subVertical, timestamp, results⟩) := by
  have hrepr : saveSearchToHistory history newId companyName businessVertical subVertical
      timestamp results =
      (({ id := newId
          companyName := companyName
          businessVertical := businessVertical
          subVertical := subVertical
          timestamp := timestamp
          results := results } : SearchHistoryItem ρ) ::
        history.filter (fun x =>
          !(decide (x.companyName = companyName) &&
            decide (x.businessVertical = businessVertical) &&
            decide (x.subVertical = subVertical)))).take maxHistory := rfl
  rw [hrepr]
  refine ⟨List.length_take_le _ _, rfl, ?_, ?_⟩
  · apply List.Pairwise.sublist (List.take_sublist _ _)
    refine List.pairwise_cons.mpr ⟨?_, hinv.filter _⟩
    intro x hx
    have hd := (List.mem_filter.mp hx).2
    simp only [sameTriple]
    rintro ⟨h₁, h₂, h₃⟩
    rw [← h₁, ← h₂, ← h₃] at hd
    simp at hd
  · intro x hx h₁ h₂ h₃
    have hx₂ : x ∈ _ := (List.take_sublist _ _).subset hx
    rcases List.mem_cons.mp hx₂ with he | hf
    · exact he
    · exfalso
      have hd := (List.mem_filter.mp hf).2
      rw [h₁, h₂, h₃] at hd
      simp at hd

/-- Witness for C9: saving a search over a one-entry history with a
different triple puts the new search first. -/
theorem saveSearchToHistory_spec_witness :
    (saveSearchToHistory [⟨"0", "Other", "Retail", none, "t0", 0⟩]
        "1" "Acme" "Finance" (some "Banking") "t1" (0 : Nat)).head? =
      some ⟨"1", "Acme", "Finance", some "Banking", "t1", 0⟩ :=
  (saveSearchToHistory_spec [⟨"0", "Other", "Retail", none, "t0", 0⟩]
    "1" "Acme" "Finance" (some "Banking") "t1" (0 : Nat) (by simp)).2.1

end Atlas
